import Mathlib

/-!
Verification of the log-tailing core of `nextstrain/cli`:
`src/nextstrain/cli/runner/aws_batch/logs.py` (`fetch_stream` and
`LogWatcher`).  The remote CloudWatch Logs API is abstracted as an
oracle mapping a query to the pages it would return; everything the
Python code does on top of that oracle is embedded as executable Lean
functions.
-/

/-- A log entry, as returned by the remote store: the Python code reads the
keys `eventId` (dedup key) and `timestamp` (cursor); `message` stands for the
rest of the payload, which the code passes through untouched. -/
structure Entry where
  eventId : String
  timestamp : Int
  message : String
deriving DecidableEq

/-- The failure modes of the remote call (spec section 7): the transport or
auth layer fails, or the named stream does not exist. -/
inductive LogsError where
  | sourceUnavailable
  | streamNotFound
deriving DecidableEq

/-- One page of a paginated `filter_log_events` response; `events` may be
empty (the Python code defaults a missing `events` key to `[]`). -/
structure Page where
  events : List Entry
deriving DecidableEq

/-- The query dict built by `fetch_stream` (logs.py lines 21-27):
`logGroupName`, `logStreamNames`, and an optional `startTime`. -/
structure Query where
  logGroupName : String
  logStreamNames : List String
  startTime : Option Int
deriving DecidableEq

/-- Embeds logs.py lines 21-27.  The Python guard is `if start_time:`, which
is false both for `None` and for the integer `0`, so a `start_time` of `0`
does not put a `startTime` bound into the query. -/
def buildQuery (stream : String) (start_time : Option Int) : Query :=
  { logGroupName := "/aws/batch/job"
    logStreamNames := [stream]
    startTime :=
      match start_time with
      | some t => if t = 0 then none else some t
      | none => none }

/-- Embeds `fetch_stream` (logs.py lines 10-30): build the query, hand it to
the remote paginator, and concatenate the `events` of every returned page in
order.  A failing remote call propagates unchanged; there is no retry and no
other handler in the source. -/
def fetch_stream (remote : Query → Except LogsError (List Page))
    (stream : String) (start_time : Option Int) : Except LogsError (List Entry) :=
  match remote (buildQuery stream start_time) with
  | .error e => .error e
  | .ok pages => .ok (List.flatten (pages.map Page.events))

/-- A remote store holding one entry with a negative timestamp, answering
every query with the entries that satisfy the query's own `startTime` bound
(so the remote itself filters faithfully whenever a bound is present). -/
def negRemote (q : Query) : Except LogsError (List Page) :=
  .ok [⟨List.filter
    (fun e =>
      match q.startTime with
      | some t => decide (t ≤ e.timestamp)
      | none => true)
    [⟨"neg", -1, "m"⟩]⟩]

/-- A remote that always fails with `StreamNotFound`. -/
def notFoundRemote (_ : Query) : Except LogsError (List Page) :=
  .error .streamNotFound

/-- The results of a sequence of `fetch_stream` calls against one remote
store: each call is evaluated from its own arguments alone, as each Python
call builds a fresh generator and a fresh paginator. -/
def callResults (remote : Query → Except LogsError (List Page))
    (calls : List (String × Option Int)) : List (Except LogsError (List Entry)) :=
  calls.map (fun c => fetch_stream remote c.1 c.2)

/-- The watcher object as constructed (logs.py lines 42-46): the stream name,
the consumer callback, and the `stopped` event, initially unset. -/
structure LogWatcher (α : Type) where
  stream : String
  consumer : Entry → α
  stopped : Bool

/-- `LogWatcher.__init__` (logs.py lines 42-46): the stop event starts unset. -/
def mkWatcher (α : Type) (stream : String) (consumer : Entry → α) : LogWatcher α :=
  { stream := stream, consumer := consumer, stopped := false }

/-- `LogWatcher.stop` (logs.py lines 48-55): set the stop event. -/
def LogWatcher.stop {α : Type} (w : LogWatcher α) : LogWatcher α :=
  { w with stopped := true }

/-- The loop-local state of `LogWatcher.run` (logs.py lines 62-71):
`last_timestamp`, the cursor, starts as `None`; `consumed`, the set of
entry ids already handed to the consumer, starts empty.  The Python set is
embedded as the list of ids in insertion order (newest first); the code only
ever tests membership and adds. -/
structure WatcherState where
  last_timestamp : Option Int
  consumed : List String
deriving DecidableEq

/-- The state at the top of `run` (logs.py lines 66 and 71). -/
def initState : WatcherState := { last_timestamp := none, consumed := [] }

/-- The body of the inner `for` loop (logs.py lines 74-80) for one entry:
ids already consumed are skipped; a new id is added to `consumed`, the
cursor is set to the entry's timestamp, and the entry is handed to the
consumer.  The second component lists the consumer invocations this step
performs (`[]` or `[e]`). -/
def processEntry (s : WatcherState) (e : Entry) : WatcherState × List Entry :=
  if e.eventId ∈ s.consumed then (s, [])
  else ({ last_timestamp := some e.timestamp, consumed := e.eventId :: s.consumed }, [e])

/-- The inner `for` loop over one poll's returned entries, in order,
accumulating consumer invocations. -/
def processEntries (s : WatcherState) : List Entry → WatcherState × List Entry
  | [] => (s, [])
  | e :: rest =>
    let p := processEntry s e
    let q := processEntries p.1 rest
    (q.1, p.2 ++ q.2)

/-- `k` iterations of the poll loop (logs.py lines 73-80) starting at poll
index `i`.  `fetch i t` abstracts the entry sequence that
`fetch_stream(self.stream, start_time = t)` yields on poll `i`.  Returns the
final state, the concatenated consumer invocations, and the concatenation of
all entries the polls returned. -/
def runFrom (fetch : Nat → Option Int → List Entry) :
    Nat → Nat → WatcherState → WatcherState × List Entry × List Entry
  | _, 0, s => (s, [], [])
  | i, k + 1, s =>
    let returned := fetch i s.last_timestamp
    let p := processEntries s returned
    let r := runFrom fetch (i + 1) k p.1
    (r.1, p.2 ++ r.2.1, returned ++ r.2.2)

/-- The entries `fetch_stream` yields on poll `i` when the remote store
(whose pages may change between polls) answers every query successfully. -/
def fetchOfRemote (remote : Nat → Query → List Page) (stream : String)
    (i : Nat) (t : Option Int) : List Entry :=
  match fetch_stream (fun q => .ok (remote i q)) stream t with
  | .ok es => es
  | .error _ => []

/-- `n` polls of `LogWatcher.run` on `stream` against `remote`, from the
initial state. -/
def runWatcher (remote : Nat → Query → List Page) (stream : String) (n : Nat) :
    WatcherState × List Entry × List Entry :=
  runFrom (fetchOfRemote remote stream) 0 n initState

/-- The entries handed to the consumer, in order, across `n` polls. -/
def watcherDelivered (remote : Nat → Query → List Page) (stream : String)
    (n : Nat) : List Entry :=
  (runWatcher remote stream n).2.1

/-- The concatenation of the entry sequences returned by `fetch_stream`
across `n` polls, in poll order. -/
def watcherReturned (remote : Nat → Query → List Page) (stream : String)
    (n : Nat) : List Entry :=
  (runWatcher remote stream n).2.2

/-- The cursor (`last_timestamp`) after `n` polls; it is the `start_time`
the watcher passes to `fetch_stream` on poll `n`. -/
def cursorAfter (fetch : Nat → Option Int → List Entry) (n : Nat) : Option Int :=
  (runFrom fetch 0 n initState).1.last_timestamp

/-- First-occurrence deduplication relative to an already-seen id list:
keeps exactly the first occurrence of each id not yet seen, in order.  This
is the spec's "order of first appearance" notion, used to state what the
watcher's dedup loop delivers. -/
def firstDedupFrom (seen : List String) : List String → List String
  | [] => []
  | x :: xs => if x ∈ seen then firstDedupFrom seen xs else x :: firstDedupFrom (x :: seen) xs

/-- First occurrence of each id of `l`, in order of first appearance. -/
def firstDedup (l : List String) : List String :=
  firstDedupFrom [] l

/-- The outer `while not self.stopped.wait(0.2)` loop (logs.py line 73):
`stopAt i` tells whether the stop event is set when the top-of-loop check of
iteration `i` runs; the loop exits at the first check that observes the
signal, performing no fetch on that iteration.  `fuel` bounds the number of
observed iterations. -/
def runLoop (stopAt : Nat → Bool) (fetch : Nat → Option Int → List Entry) :
    Nat → Nat → WatcherState → WatcherState × List Entry
  | _, 0, s => (s, [])
  | i, fuel + 1, s =>
    if stopAt i then (s, [])
    else
      let p := processEntries s (fetch i s.last_timestamp)
      let r := runLoop stopAt fetch (i + 1) fuel p.1
      (r.1, p.2 ++ r.2)

/-- The inner `for` loop with a consumer that can raise (logs.py lines
74-80): the id is added to `consumed` and the cursor is advanced *before*
the consumer runs, so a raising consumer aborts the loop with the entry
already recorded.  An `error` result carries the state at the moment of the
raise together with the entry being consumed. -/
def processEntriesF (consumer : Entry → Except String Unit) (s : WatcherState) :
    List Entry → Except (WatcherState × Entry) (WatcherState × List Entry)
  | [] => .ok (s, [])
  | e :: rest =>
    if e.eventId ∈ s.consumed then processEntriesF consumer s rest
    else
      match consumer e with
      | .error _ =>
        .error ({ last_timestamp := some e.timestamp, consumed := e.eventId :: s.consumed }, e)
      | .ok _ =>
        match processEntriesF consumer
            { last_timestamp := some e.timestamp, consumed := e.eventId :: s.consumed } rest with
        | .error x => .error x
        | .ok r => .ok (r.1, e :: r.2)

/-- The poll loop with a consumer that can raise: an exception propagates
out of `run`, aborting the loop. -/
def runLoopF (stopAt : Nat → Bool) (fetch : Nat → Option Int → List Entry)
    (consumer : Entry → Except String Unit) :
    Nat → Nat → WatcherState → Except (WatcherState × Entry) (WatcherState × List Entry)
  | _, 0, s => .ok (s, [])
  | i, fuel + 1, s =>
    if stopAt i then .ok (s, [])
    else
      match processEntriesF consumer s (fetch i s.last_timestamp) with
      | .error x => .error x
      | .ok p =>
        match runLoopF stopAt fetch consumer (i + 1) fuel p.1 with
        | .error x => .error x
        | .ok r => .ok (r.1, p.2 ++ r.2)

/-- Order on optional cursor values: an unset cursor precedes everything,
and set cursors compare by timestamp. -/
def optLE : Option Int → Option Int → Prop
  | none, _ => True
  | some _, none => False
  | some a, some b => a ≤ b

/-- A fetch oracle that honours the `start_time` lower bound by
construction: with a bound `t` it returns one entry stamped `t + 1`. -/
def monoFetch (_ : Nat) : Option Int → List Entry
  | none => [⟨"a", 3, "m"⟩]
  | some t => [⟨"b", t + 1, "m"⟩]

/-- A consumer that raises on the entry with id `bad`. -/
def badConsumer (e : Entry) : Except String Unit :=
  if e.eventId = "bad" then .error "boom" else .ok ()

/-- Claim C6: fetch_stream performs no retry and absorbs no failure: whenever the
remote call answers the built query with an error (`SourceUnavailable` or
`StreamNotFound`), `fetch_stream` returns exactly that error to its caller. -/
theorem fetch_stream_propagates_error
    (remote : Query → Except LogsError (List Page))
    (stream : String) (t : Option Int) (err : LogsError)
    (h : remote (buildQuery stream t) = .error err) :
    fetch_stream remote stream t = .error err := by
  simp [fetch_stream, h]

/-- Witness for C6 at a concrete failing remote. -/
theorem fetch_stream_propagates_error_witness :
    notFoundRemote (buildQuery "job-stream" none) = .error .streamNotFound ∧
    fetch_stream notFoundRemote "job-stream" none = .error .streamNotFound :=
  ⟨rfl, fetch_stream_propagates_error notFoundRemote "job-stream" none .streamNotFound rfl⟩

/-- Claim C4: evaluated at `start_time = 0`, `fetch_stream` puts no `startTime`
bound into the remote query (the Python `if start_time:` guard treats the
integer 0 like `None`), so a bound-respecting remote returns an entry with
timestamp `-1 < 0`; with the nonzero bound `1` the same remote is filtered. -/
theorem fetch_stream_zero_start_time_unfiltered :
    (buildQuery "job-stream" (some 0)).startTime = none ∧
    fetch_stream negRemote "job-stream" (some 0) = .ok [⟨"neg", -1, "m"⟩] ∧
    fetch_stream negRemote "job-stream" (some 1) = .ok [] :=
  ⟨rfl, rfl, rfl⟩

/-- Claim C9: `fetch_stream` retains no state between calls: in any sequence of
calls, the result of a call is `fetch_stream remote s t`, a function of its
own arguments and the remote store alone, whatever calls come before or
after; in particular two calls with equal arguments give equal sequences. -/
theorem fetch_stream_restartable
    (remote : Query → Except LogsError (List Page))
    (pre post : List (String × Option Int)) (s : String) (t : Option Int) :
    callResults remote (pre ++ (s, t) :: post) =
      callResults remote pre ++ fetch_stream remote s t :: callResults remote post := by
  simp [callResults]

/-- Iterating `stop` on an already-stopped watcher changes nothing. -/
theorem stop_iter_fixed {α : Type} (n : Nat) (w : LogWatcher α) :
    LogWatcher.stop^[n] w.stop = w.stop := by
  induction n with
  | zero => rfl
  | succ k ih =>
    rw [Function.iterate_succ_apply]
    exact ih

/-- Claim C8: `stop()` is idempotent: any positive number of `stop()` calls leaves
the watcher in the same state as a single call, and that state has the stop
signal set. -/
theorem stop_idempotent {α : Type} (w : LogWatcher α) (n : Nat) :
    LogWatcher.stop^[n + 1] w = w.stop ∧ (w.stop).stopped = true := by
  refine ⟨?_, rfl⟩
  rw [Function.iterate_succ_apply]
  exact stop_iter_fixed n w

/-- After the inner loop, `consumed` is exactly the delivered ids (newest
first) on top of the previous `consumed`. -/
theorem processEntries_consumed (es : List Entry) (s : WatcherState) :
    (processEntries s es).1.consumed =
      ((processEntries s es).2.map Entry.eventId).reverse ++ s.consumed := by
  induction es generalizing s with
  | nil => simp [processEntries]
  | cons e rest ih =>
    by_cases h : e.eventId ∈ s.consumed
    · simpa [processEntries, processEntry, h] using ih s
    · simp only [processEntries, processEntry, if_neg h, List.map_append, List.map_cons,
        List.map_nil, List.reverse_append, List.reverse_cons, List.reverse_nil,
        List.nil_append, List.append_assoc, List.singleton_append]
      simpa using ih { last_timestamp := some e.timestamp, consumed := e.eventId :: s.consumed }

/-- The ids the inner loop delivers are the first occurrences, relative to
what is already consumed, of the ids of the processed entries, in order. -/
theorem processEntries_ids (es : List Entry) (s : WatcherState) :
    (processEntries s es).2.map Entry.eventId =
      firstDedupFrom s.consumed (es.map Entry.eventId) := by
  induction es generalizing s with
  | nil => simp [processEntries, firstDedupFrom]
  | cons e rest ih =>
    by_cases h : e.eventId ∈ s.consumed
    · simpa [processEntries, processEntry, firstDedupFrom, h] using ih s
    · simp only [processEntries, processEntry, if_neg h, List.map_cons, firstDedupFrom,
        List.map_append, List.map_nil, List.singleton_append]
      exact congrArg (fun l => e.eventId :: l)
        (ih { last_timestamp := some e.timestamp, consumed := e.eventId :: s.consumed })

/-- Splitting first-occurrence dedup across an append: the second half is
deduplicated relative to the ids the first half kept. -/
theorem firstDedupFrom_append (xs ys seen : List String) :
    firstDedupFrom seen (xs ++ ys) =
      firstDedupFrom seen xs ++
        firstDedupFrom ((firstDedupFrom seen xs).reverse ++ seen) ys := by
  induction xs generalizing seen with
  | nil => simp [firstDedupFrom]
  | cons x xs ih =>
    by_cases h : x ∈ seen
    · simpa [firstDedupFrom, h] using ih seen
    · have hsplit : firstDedupFrom seen (x :: xs) = x :: firstDedupFrom (x :: seen) xs := by
        rw [firstDedupFrom, if_neg h]
      rw [List.cons_append, firstDedupFrom, if_neg h, ih (x :: seen), hsplit,
        List.reverse_cons, List.append_assoc, List.singleton_append, List.cons_append]

/-- Across any number of polls, the delivered ids are the first occurrences
(relative to the starting `consumed`) of the returned ids, in order. -/
theorem runFrom_ids (fetch : Nat → Option Int → List Entry) (k i : Nat) (s : WatcherState) :
    (runFrom fetch i k s).2.1.map Entry.eventId =
      firstDedupFrom s.consumed ((runFrom fetch i k s).2.2.map Entry.eventId) := by
  induction k generalizing i s with
  | zero => simp [runFrom, firstDedupFrom]
  | succ k ih =>
    simp only [runFrom, List.map_append]
    rw [firstDedupFrom_append, ← processEntries_ids, ih (i + 1),
      processEntries_consumed, processEntries_ids]

/-- Membership in first-occurrence dedup. -/
theorem mem_firstDedupFrom (l seen : List String) (x : String) :
    x ∈ firstDedupFrom seen l ↔ x ∈ l ∧ x ∉ seen := by
  induction l generalizing seen with
  | nil => simp [firstDedupFrom]
  | cons y l ih =>
    by_cases h : y ∈ seen
    · rw [firstDedupFrom, if_pos h, ih seen]
      constructor
      · exact fun hl => ⟨List.mem_cons_of_mem _ hl.1, hl.2⟩
      · rintro ⟨hl, hs⟩
        rcases List.mem_cons.mp hl with rfl | hl
        · exact absurd h hs
        · exact ⟨hl, hs⟩
    · rw [firstDedupFrom, if_neg h]
      constructor
      · intro hx
        rcases List.mem_cons.mp hx with rfl | hx
        · exact ⟨List.mem_cons_self _ _, h⟩
        · rcases (ih (y :: seen)).mp hx with ⟨hl, hs⟩
          exact ⟨List.mem_cons_of_mem _ hl,
            fun hmem => hs (List.mem_cons_of_mem _ hmem)⟩
      · rintro ⟨hl, hs⟩
        rcases List.mem_cons.mp hl with rfl | hl
        · exact List.mem_cons_self _ _
        · rcases eq_or_ne x y with rfl | hne
          · exact List.mem_cons_self _ _
          · refine List.mem_cons_of_mem _ ((ih (y :: seen)).mpr ⟨hl, fun hmem => ?_⟩)
            rcases List.mem_cons.mp hmem with h1 | h2
            · exact hne h1
            · exact hs h2

/-- First-occurrence dedup has no duplicate ids. -/
theorem nodup_firstDedupFrom (l seen : List String) :
    (firstDedupFrom seen l).Nodup := by
  induction l generalizing seen with
  | nil => simp [firstDedupFrom]
  | cons y l ih =>
    by_cases h : y ∈ seen
    · rw [firstDedupFrom, if_pos h]
      exact ih seen
    · rw [firstDedupFrom, if_neg h]
      refine List.nodup_cons.mpr ⟨fun hy => ?_, ih (y :: seen)⟩
      exact ((mem_firstDedupFrom l (y :: seen) y).mp hy).2 (List.mem_cons_self y seen)

/-- Claim C1: exactly-once delivery.  Over any finite run of polls against
any remote store (so the pages returned across polls may overlap by id), the
ids handed to the consumer form a duplicate-free list whose members are
precisely the ids ever returned by `fetch_stream`: no distinct id is
dropped, and no id is delivered twice. -/
theorem exactly_once_delivery (remote : Nat → Query → List Page) (stream : String) (n : Nat) :
    ((watcherDelivered remote stream n).map Entry.eventId).Nodup ∧
      ∀ x, x ∈ (watcherDelivered remote stream n).map Entry.eventId ↔
        x ∈ (watcherReturned remote stream n).map Entry.eventId := by
  have hd : (watcherDelivered remote stream n).map Entry.eventId
      = firstDedupFrom [] ((watcherReturned remote stream n).map Entry.eventId) := by
    simpa [watcherDelivered, watcherReturned, runWatcher, initState]
      using runFrom_ids (fetchOfRemote remote stream) n 0 initState
  rw [hd]
  refine ⟨nodup_firstDedupFrom _ _, fun x => ?_⟩
  rw [mem_firstDedupFrom]
  simp

/-- Claim C2: delivery order.  Over any finite run of polls, the ids handed
to the consumer, in invocation order, are exactly the ids of the
concatenation of the polls' returned sequences with all but the first
occurrence of each id removed — the order of first appearance; the watcher
never re-sorts. -/
theorem delivery_order_first_appearance (remote : Nat → Query → List Page)
    (stream : String) (n : Nat) :
    (watcherDelivered remote stream n).map Entry.eventId =
      firstDedup ((watcherReturned remote stream n).map Entry.eventId) := by
  simpa [watcherDelivered, watcherReturned, runWatcher, firstDedup, initState]
    using runFrom_ids (fetchOfRemote remote stream) n 0 initState

/-- Peeling the last poll off a run: the state after `k + 1` polls is the
state after `k` polls, stepped by the inner loop on what poll `i + k`
returns for the cursor at that point. -/
theorem runFrom_state_succ (fetch : Nat → Option Int → List Entry) (k i : Nat)
    (s : WatcherState) :
    (runFrom fetch i (k + 1) s).1 =
      (processEntries (runFrom fetch i k s).1
        (fetch (i + k) (runFrom fetch i k s).1.last_timestamp)).1 := by
  induction k generalizing i s with
  | zero => simp [runFrom]
  | succ k ih =>
    have h1 : (runFrom fetch i (k + 1 + 1) s).1
        = (runFrom fetch (i + 1) (k + 1) (processEntries s (fetch i s.last_timestamp)).1).1 := by
      simp [runFrom]
    have h2 : (runFrom fetch i (k + 1) s).1
        = (runFrom fetch (i + 1) k (processEntries s (fetch i s.last_timestamp)).1).1 := by
      simp [runFrom]
    rw [h1, ih (i + 1), h2]
    have h3 : i + 1 + k = i + (k + 1) := by omega
    rw [h3]

/-- After the inner loop, the cursor is either unchanged or the timestamp of
one of the processed entries. -/
theorem processEntries_cursor (es : List Entry) (s : WatcherState) :
    (processEntries s es).1.last_timestamp = s.last_timestamp ∨
      ∃ e ∈ es, (processEntries s es).1.last_timestamp = some e.timestamp := by
  induction es generalizing s with
  | nil => exact Or.inl rfl
  | cons e rest ih =>
    by_cases h : e.eventId ∈ s.consumed
    · have hp : (processEntries s (e :: rest)).1 = (processEntries s rest).1 := by
        simp [processEntries, processEntry, h]
      rw [hp]
      rcases ih s with h1 | ⟨e', he', h2⟩
      · exact Or.inl h1
      · exact Or.inr ⟨e', List.mem_cons_of_mem _ he', h2⟩
    · have hp : (processEntries s (e :: rest)).1
          = (processEntries ⟨some e.timestamp, e.eventId :: s.consumed⟩ rest).1 := by
        simp [processEntries, processEntry, h]
      rw [hp]
      rcases ih ⟨some e.timestamp, e.eventId :: s.consumed⟩ with h1 | ⟨e', he', h2⟩
      · exact Or.inr ⟨e, List.mem_cons_self e rest, h1⟩
      · exact Or.inr ⟨e', List.mem_cons_of_mem _ he', h2⟩

/-- When every processed entry's timestamp is at least the current cursor,
the inner loop can only move the cursor forward. -/
theorem processEntries_optLE (es : List Entry) (s : WatcherState)
    (h : ∀ t, s.last_timestamp = some t → ∀ e ∈ es, t ≤ e.timestamp) :
    optLE s.last_timestamp (processEntries s es).1.last_timestamp := by
  cases hs : s.last_timestamp with
  | none => exact trivial
  | some t =>
    rcases processEntries_cursor es s with h1 | ⟨e, he, h2⟩
    · rw [hs] at h1
      rw [h1]
      exact le_refl t
    · rw [h2]
      exact h t hs e he

/-- Claim C3: cursor monotonicity.  If every entry a fetch with
`start_time = t` returns carries a timestamp at least `t` (the initial
fetch, with no lower bound, is unconstrained), then the `start_time` the
watcher uses for poll `n + 1` is at least the one used for poll `n`, for
every `n`: the cursor never moves backwards across the watcher's lifetime. -/
theorem cursor_monotone (fetch : Nat → Option Int → List Entry)
    (h : ∀ i t e, e ∈ fetch i (some t) → t ≤ e.timestamp) (n : Nat) :
    optLE (cursorAfter fetch n) (cursorAfter fetch (n + 1)) := by
  unfold cursorAfter
  rw [runFrom_state_succ fetch n 0 initState]
  apply processEntries_optLE
  intro t ht e he
  rw [ht] at he
  exact h (0 + n) t e he

/-- Witness for C3 at a fetch oracle that honours the bound: the cursor
after poll 2 is at least the cursor after poll 1. -/
theorem cursor_monotone_witness :
    (∀ i t e, e ∈ monoFetch i (some t) → t ≤ e.timestamp) ∧
    optLE (cursorAfter monoFetch 1) (cursorAfter monoFetch 2) := by
  have h : ∀ i t e, e ∈ monoFetch i (some t) → t ≤ e.timestamp := by
    intro i t e he
    simp only [monoFetch, List.mem_singleton] at he
    subst he
    show t ≤ t + 1
    omega
  exact ⟨h, cursor_monotone monoFetch h 1⟩

/-- Below the first observed stop check, the loop's behaviour depends only
on what the polls it actually performs return: two fetch oracles agreeing on
all poll indices before a set stop check produce identical runs. -/
theorem runLoop_agree (stopAt : Nat → Bool) (fetch fetch' : Nat → Option Int → List Entry)
    (n : Nat) (hstop : stopAt n = true) (hag : ∀ j, j < n → fetch j = fetch' j) :
    ∀ fuel i s, i ≤ n → runLoop stopAt fetch i fuel s = runLoop stopAt fetch' i fuel s := by
  intro fuel
  induction fuel with
  | zero => intro i s _; rfl
  | succ fuel ih =>
    intro i s hi
    by_cases h : stopAt i = true
    · simp [runLoop, h]
    · have hin : i < n := by
        rcases Nat.lt_or_ge i n with h1 | h1
        · exact h1
        · exact absurd (Nat.le_antisymm hi h1 ▸ hstop) h
      have hfe : fetch i = fetch' i := hag i hin
      simp only [runLoop, if_neg h]
      rw [hfe, ih (i + 1) _ (Nat.succ_le_of_lt hin)]

/-- Claim C5: stop semantics.  (1) If the stop signal is already set at the
first top-of-loop check, the loop exits with no fetch performed and no
consumer invocation, leaving the initial state untouched — `stop()` before
the first poll yields zero deliveries.  (2) Once some check `n` observes the
signal, the whole run is independent of anything the Log Source would have
returned from poll `n` on: no further consumer invocation can ever occur. -/
theorem stop_semantics (stopAt : Nat → Bool) (fetch fetch' : Nat → Option Int → List Entry)
    (fuel n : Nat) :
    (stopAt 0 = true → runLoop stopAt fetch 0 fuel initState = (initState, [])) ∧
    (stopAt n = true → (∀ j, j < n → fetch j = fetch' j) →
      runLoop stopAt fetch 0 fuel initState = runLoop stopAt fetch' 0 fuel initState) := by
  constructor
  · intro h0
    cases fuel with
    | zero => rfl
    | succ fuel => simp [runLoop, h0]
  · intro hstop hag
    exact runLoop_agree stopAt fetch fetch' n hstop hag fuel 0 initState (Nat.zero_le n)

/-- Witness for C5: with the signal set from the start, three loop
iterations deliver nothing, whatever the Log Source holds. -/
theorem stop_semantics_witness :
    ((fun _ : Nat => true) 0 = true ∧
      runLoop (fun _ => true) (fun _ _ => []) 0 3 initState = (initState, [])) ∧
    runLoop (fun _ => true) (fun _ _ => []) 0 3 initState
      = runLoop (fun _ => true) (fun _ _ => [⟨"z", 1, "m"⟩]) 0 3 initState := by
  refine ⟨⟨rfl, ?_⟩, ?_⟩
  · exact (stop_semantics (fun _ => true) (fun _ _ => [])
      (fun _ _ => [⟨"z", 1, "m"⟩]) 3 0).1 rfl
  · exact (stop_semantics (fun _ => true) (fun _ _ => [])
      (fun _ _ => [⟨"z", 1, "m"⟩]) 3 0).2 rfl (fun j hj => absurd hj (Nat.not_lt_zero j))

/-- Claim C7: frame effects.  An entry whose id is already consumed leaves
the state untouched and triggers no consumer invocation; a poll returning no
entries leaves cursor and seen-set untouched; and whenever a step changes
the cursor, that step delivered the entry and the new cursor is exactly that
entry's timestamp. -/
theorem seen_entry_frame (s : WatcherState) (e : Entry) :
    (e.eventId ∈ s.consumed → processEntry s e = (s, [])) ∧
    processEntries s [] = (s, []) ∧
    ((processEntry s e).1.last_timestamp ≠ s.last_timestamp →
      (processEntry s e).2 = [e] ∧ (processEntry s e).1.last_timestamp = some e.timestamp) := by
  refine ⟨fun h => by simp [processEntry, h], rfl, fun hch => ?_⟩
  by_cases h : e.eventId ∈ s.consumed
  · exact absurd (show (processEntry s e).1.last_timestamp = s.last_timestamp by
      simp [processEntry, h]) hch
  · constructor <;> simp [processEntry, h]

/-- Witness for C7: a duplicate id is a strict no-op; a fresh id is
delivered and sets the cursor to its timestamp. -/
theorem seen_entry_frame_witness :
    processEntry ⟨some 5, ["a"]⟩ ⟨"a", 9, "m"⟩ = (⟨some 5, ["a"]⟩, []) ∧
    ((processEntry ⟨some 5, ["a"]⟩ ⟨"b", 9, "m"⟩).2 = [⟨"b", 9, "m"⟩] ∧
      (processEntry ⟨some 5, ["a"]⟩ ⟨"b", 9, "m"⟩).1.last_timestamp = some 9) :=
  ⟨(seen_entry_frame ⟨some 5, ["a"]⟩ ⟨"a", 9, "m"⟩).1 (by decide),
   (seen_entry_frame ⟨some 5, ["a"]⟩ ⟨"b", 9, "m"⟩).2.2 (by decide)⟩

/-- An id already in the seen-set is never delivered again by any further
processing: the seen-set only grows, and delivery requires absence. -/
theorem consumed_never_redelivered (es : List Entry) (s : WatcherState) (x : String)
    (h : x ∈ s.consumed) : x ∉ (processEntries s es).2.map Entry.eventId := by
  induction es generalizing s with
  | nil => simp [processEntries]
  | cons e rest ih =>
    by_cases he : e.eventId ∈ s.consumed
    · have hp : processEntries s (e :: rest) = processEntries s rest := by
        simp [processEntries, processEntry, he]
      rw [hp]
      exact ih s h
    · have hq : (processEntries s (e :: rest)).2
          = e :: (processEntries ⟨some e.timestamp, e.eventId :: s.consumed⟩ rest).2 := by
        simp [processEntries, processEntry, he]
      rw [hq]
      simp only [List.map_cons, List.mem_cons, not_or]
      exact ⟨fun hx => he (hx ▸ h), ih _ (List.mem_cons_of_mem _ h)⟩

/-- If the inner loop aborts because the consumer raised on entry `e`, the
state at the raise already lists `e`'s id as consumed and has the cursor at
`e`'s timestamp, and the consumer did fail on `e`. -/
theorem processEntriesF_error (consumer : Entry → Except String Unit)
    (es : List Entry) :
    ∀ s s' e, processEntriesF consumer s es = .error (s', e) →
      e.eventId ∈ s'.consumed ∧ s'.last_timestamp = some e.timestamp ∧
        ∃ msg, consumer e = .error msg := by
  induction es with
  | nil =>
    intro s s' e h
    simp [processEntriesF] at h
  | cons a rest ih =>
    intro s s' e h
    rw [processEntriesF] at h
    by_cases ha : a.eventId ∈ s.consumed
    · rw [if_pos ha] at h
      exact ih s s' e h
    · rw [if_neg ha] at h
      cases hc : consumer a with
      | error msg =>
        rw [hc] at h
        have h' : (⟨some a.timestamp, a.eventId :: s.consumed⟩, a)
            = ((s', e) : WatcherState × Entry) := by
          exact Except.error.inj h
        have hs' : s' = ⟨some a.timestamp, a.eventId :: s.consumed⟩ :=
          (congrArg Prod.fst h').symm
        have hae : a = e := congrArg Prod.snd h'
        subst hae
        rw [hs']
        exact ⟨List.mem_cons_self _ _, rfl, msg, hc⟩
      | ok u =>
        rw [hc] at h
        cases hrec : processEntriesF consumer ⟨some a.timestamp, a.eventId :: s.consumed⟩ rest with
        | error x =>
          rw [hrec] at h
          have hx : x = (s', e) := Except.error.inj h
          rw [hx] at hrec
          exact ih _ s' e hrec
        | ok r =>
          rw [hrec] at h
          exact absurd h (by simp)

/-- If the poll loop aborts because the consumer raised on entry `e`, the
state carried out by the raise records `e` as consumed with the cursor at
`e`'s timestamp. -/
theorem runLoopF_error (stopAt : Nat → Bool) (fetch : Nat → Option Int → List Entry)
    (consumer : Entry → Except String Unit) :
    ∀ fuel i s s' e, runLoopF stopAt fetch consumer i fuel s = .error (s', e) →
      e.eventId ∈ s'.consumed ∧ s'.last_timestamp = some e.timestamp ∧
        ∃ msg, consumer e = .error msg := by
  intro fuel
  induction fuel with
  | zero =>
    intro i s s' e h
    simp [runLoopF] at h
  | succ fuel ih =>
    intro i s s' e h
    rw [runLoopF] at h
    by_cases hst : stopAt i = true
    · rw [if_pos hst] at h
      exact absurd h (by simp)
    · rw [if_neg hst] at h
      cases hp : processEntriesF consumer s (fetch i s.last_timestamp) with
      | error x =>
        rw [hp] at h
        have hx : x = (s', e) := Except.error.inj h
        rw [hx] at hp
        exact processEntriesF_error consumer _ s s' e hp
      | ok p =>
        rw [hp] at h
        dsimp only at h
        cases hr : runLoopF stopAt fetch consumer (i + 1) fuel p.1 with
        | error x =>
          rw [hr] at h
          have hx : x = (s', e) := Except.error.inj h
          rw [hx] at hr
          exact ih (i + 1) p.1 s' e hr
        | ok r =>
          rw [hr] at h
          exact absurd h (by simp)

/-- Claim C10: for a newly-seen entry the watcher records the id in the
seen-set and advances the cursor *before* invoking the consumer, so when the
consumer raises, the exception propagates out of `run` with the state
already counting the entry as consumed — and an id in the seen-set can never
be delivered by any further processing, so the failing entry would never be
redelivered. -/
theorem consumer_failure_records_entry (stopAt : Nat → Bool)
    (fetch : Nat → Option Int → List Entry) (consumer : Entry → Except String Unit)
    (fuel : Nat) (s' : WatcherState) (e : Entry)
    (h : runLoopF stopAt fetch consumer 0 fuel initState = .error (s', e)) :
    e.eventId ∈ s'.consumed ∧ s'.last_timestamp = some e.timestamp ∧
      (∃ msg, consumer e = .error msg) ∧
      ∀ es, e.eventId ∉ (processEntries s' es).2.map Entry.eventId := by
  obtain ⟨h1, h2, h3⟩ := runLoopF_error stopAt fetch consumer fuel 0 initState s' e h
  exact ⟨h1, h2, h3, fun es => consumed_never_redelivered es s' e.eventId h1⟩

/-- Witness for C10: a consumer raising on id `bad` aborts the first poll
with `bad` recorded as consumed and the cursor at its timestamp, and a
subsequent fetch of the same entry would deliver nothing. -/
theorem consumer_failure_records_entry_witness :
    runLoopF (fun _ => false) (fun _ _ => [⟨"bad", 7, "m"⟩]) badConsumer 0 1 initState
        = .error (⟨some 7, ["bad"]⟩, ⟨"bad", 7, "m"⟩) ∧
    "bad" ∈ (⟨some 7, ["bad"]⟩ : WatcherState).consumed ∧
    (⟨some 7, ["bad"]⟩ : WatcherState).last_timestamp = some 7 ∧
    "bad" ∉ (processEntries ⟨some 7, ["bad"]⟩ [⟨"bad", 7, "m"⟩]).2.map Entry.eventId := by
  have happ := consumer_failure_records_entry (fun _ => false)
    (fun _ _ => [⟨"bad", 7, "m"⟩]) badConsumer 1 ⟨some 7, ["bad"]⟩ ⟨"bad", 7, "m"⟩ rfl
  exact ⟨rfl, happ.1, happ.2.1, happ.2.2.2 [⟨"bad", 7, "m"⟩]⟩
